import Mathlib

set_option maxRecDepth 10000

/-!
Verification of the natural-language specification of the Text2Query
application (`app.py`) against a shallow embedding of its
generation/safety core.

Strings are modelled as Lean `String`s; the string algorithms of the
source (Python `str.strip`, `str.lower`, substring tests, the regular
expressions of `extract_sql` and `detect_top_n`, and the `re.sub`
fence removal) are embedded as executable functions on `List Char`.
The embedding is faithful on the ASCII fragment: `lower` maps only
the letters A-Z, and whitespace is the six ASCII whitespace
characters recognised by both Python `str.strip` and the regex
class `\s` on ASCII input.
-/

/-! ## Character-level primitives -/

/-- ASCII whitespace as recognised by Python `str.strip()` and the
regex class `\s`: space, tab, newline, carriage return, vertical
tab, form feed. -/
def pyIsSpace (c : Char) : Bool :=
  c.toNat == 32 || c.toNat == 9 || c.toNat == 10 ||
  c.toNat == 13 || c.toNat == 11 || c.toNat == 12

/-- ASCII lower-casing of one character, as Python `str.lower()`
acts on ASCII text. -/
def lowerChar (c : Char) : Char :=
  if 65 ≤ c.toNat ∧ c.toNat ≤ 90 then Char.ofNat (c.toNat + 32) else c

/-- Python `str.lower()` on ASCII text. -/
def lowerL (l : List Char) : List Char := l.map lowerChar

/-- Python `str.lstrip()`. -/
def lstripL (l : List Char) : List Char := l.dropWhile pyIsSpace

/-- Python `str.rstrip()`: drop the maximal whitespace suffix
(implemented through `reverse` so that it evaluates by iteration). -/
def rstripL (l : List Char) : List Char := (l.reverse.dropWhile pyIsSpace).reverse

/-- Python `str.strip()`. -/
def stripL (l : List Char) : List Char := rstripL (lstripL l)

/-- Python `str.strip()` at the `String` level. -/
def stripS (s : String) : String := ⟨stripL s.data⟩

/-- Python substring test `pat in hay`. -/
def containsSub (hay pat : List Char) : Bool :=
  match hay with
  | [] => pat.isEmpty
  | _ :: t => pat.isPrefixOf hay || containsSub t pat

/-! ## Safety Gate: `safe_sql_check` (app.py lines 297-307) -/

/-- The forbidden-keyword denylist, in the order the source scans it. -/
def forbiddenKeywords : List String :=
  ["drop", "delete", "update", "insert", "alter", "truncate", "merge", "exec", "call"]

/-- Embedding of `safe_sql_check(sql)`: returns `(ok, reason)`.
Checks, in order: non-blank; lower-cased stripped text starts with
`select`; no forbidden keyword occurs as a substring. -/
def safe_sql_check (sql : String) : Bool × String :=
  if stripL sql.data = [] then (false, "SQL empty.")
  else
    let s := stripL (lowerL sql.data)
    if !("select".data.isPrefixOf s) then (false, "Only SELECT allowed.")
    else
      match forbiddenKeywords.find? (fun w => containsSub s w.data) with
      | some w => (false, "Forbidden keyword \x27" ++ w ++ "\x27.")
      | none => (true, "")

/-- Embedding of the `run_btn` handler (app.py lines 508-517): the
editor text is stripped, vetted by the Safety Gate, and only on
acceptance does the stripped SQL reach `run_sql` (the Query
Executor). `some sql` is the statement handed to the executor;
`none` means execution was blocked. -/
def run_handler (sql_editor : String) : Option String :=
  let sql := stripS sql_editor
  if (safe_sql_check sql).1 then some sql else none

/-! ## SQL Extractor: `extract_sql` (app.py lines 243-266) -/

/-- One pass of Python `re.sub(pat ++ r"\s*", '', raw)` for a literal
pattern `pat` followed by greedy `\s*`: scan left to right; at a
match, drop the literal and the maximal following whitespace run and
continue after it (matches are non-overlapping, like `re.sub`).
Recursion is fuelled by the input length, which bounds the number of
steps. -/
def removeFenceF (pat : List Char) : Nat → List Char → List Char
  | _, [] => []
  | 0, l => l
  | fuel + 1, c :: t =>
    if pat ≠ [] ∧ pat.isPrefixOf (c :: t) then
      removeFenceF pat fuel (((c :: t).drop pat.length).dropWhile pyIsSpace)
    else
      c :: removeFenceF pat fuel t

/-- Python `re.sub` of a literal-plus-`\s*` pattern with empty replacement. -/
def removeFence (pat l : List Char) : List Char := removeFenceF pat l.length l

/-- The two fence-removal substitutions of `extract_sql`, in source
order: first ```` ```sql\s* ````, then ```` ```\s* ````. -/
def cleanFences (l : List Char) : List Char :=
  removeFence "```".data (removeFence "```sql".data l)

/-- Case-insensitive prefix test used by the `re.IGNORECASE`
searches: `pat` (already lower-case) against the lower-cased text. -/
def startsWithCI (pat l : List Char) : Bool := pat.isPrefixOf (lowerL l)

/-- The suffix of the text starting at the leftmost case-insensitive
occurrence of `SELECT`, if any (the anchor of both regex searches in
`extract_sql`). -/
def firstSelectSuffix : List Char → Option (List Char)
  | [] => none
  | c :: t => if startsWithCI "select".data (c :: t) then some (c :: t) else firstSelectSuffix t

/-- The prefix of `l` up to and including its first `;`, if any —
the lazy `[\s\S]*?;` part of the first regex of `extract_sql`. -/
def upToSemi : List Char → Option (List Char)
  | [] => none
  | c :: t => if c = ';' then some [';'] else (upToSemi t).map (fun r => c :: r)

/-- Python `candidate.endswith(";")`. -/
def endsWithSemi (l : List Char) : Bool := l.getLast? == some ';'

/-- The body of `extract_sql` after fence removal: the first regex
takes the span from the leftmost `SELECT` to the first following `;`;
the fallback regex takes everything from the leftmost `SELECT`; a
missing trailing `;` is appended; `""` if no `SELECT` occurs. -/
def extractCore (cleaned : List Char) : List Char :=
  let candidate :=
    match firstSelectSuffix cleaned with
    | none => []
    | some s =>
      match upToSemi (s.drop 6) with
      | some rest => stripL (s.take 6 ++ rest)
      | none => stripL s
  let candidate :=
    if candidate ≠ [] ∧ !(endsWithSemi candidate) then candidate ++ [';'] else candidate
  if candidate ≠ [] then stripL candidate else []

/-- Embedding of `extract_sql(raw)`. -/
def extract_sql (raw : String) : String := ⟨extractCore (cleanFences raw.data)⟩

/-! ## Fast-path detector: `detect_top_n` (app.py lines 427-432) and
the `gen_btn` handler branch (lines 435-450) -/

/-- The alternation `(top|first)` of the fast-path regex, tried at
one position: on a match, the remainder after the keyword. -/
def matchKw (l : List Char) : Option (List Char) :=
  if "top".data.isPrefixOf l then some (l.drop 3)
  else if "first".data.isPrefixOf l then some (l.drop 5)
  else none

/-- Numeric value of a digit string, as Python `int`. -/
def digitsVal (l : List Char) : Nat :=
  l.foldl (fun n c => n * 10 + (c.toNat - 48)) 0

/-- The full pattern `(top|first)\s+(\d+)` tried at one position:
after the keyword there must be at least one whitespace character and
then at least one digit; the captured number is the maximal digit
run (greedy `\d+`). -/
def tryTopNAt (l : List Char) : Option Nat :=
  match matchKw l with
  | none => none
  | some rest =>
    if (rest.takeWhile pyIsSpace).isEmpty then none
    else
      let digits := (rest.dropWhile pyIsSpace).takeWhile Char.isDigit
      if digits.isEmpty then none else some (digitsVal digits)

/-- Python `re.search` of the fast-path pattern: leftmost match wins. -/
def searchTopN : List Char → Option Nat
  | [] => none
  | c :: t =>
    match tryTopNAt (c :: t) with
    | some n => some n
    | none => searchTopN t

/-- Embedding of `detect_top_n(q)`: the question is lower-cased and
stripped, then searched for `(top|first)\s+(\d+)`. -/
def detect_top_n (q : String) : Option Nat :=
  searchTopN (stripL (lowerL q.data))

/-- Outcome of the `gen_btn` handler branch: error on a blank
question, a directly synthesised fast-path query, or a call into the
Generation Client (`call_llm`). -/
inductive GenAction where
  | noQuestion : GenAction
  | fast : String → GenAction
  | llmPath : GenAction
deriving DecidableEq

/-- Embedding of the `gen_btn` handler's branching: blank questions
are refused; otherwise, if `detect_top_n` yields a truthy value (a
nonzero number) and a table is selected, the SQL is synthesised
directly and the Generation Client is bypassed; in every other case
the request goes to `call_llm`. -/
def gen_branch (question : String) (table : Option String) : GenAction :=
  if stripL question.data = [] then .noQuestion
  else
    match detect_top_n question, table with
    | some n, some t =>
      if n ≠ 0 then .fast ("SELECT * FROM `" ++ t ++ "` LIMIT " ++ toString n ++ ";")
      else .llmPath
    | _, _ => .llmPath

/-! ## Prompt Builder: `build_prompt` (app.py lines 172-240) -/

/-- The instruction preamble of the prompt: everything before the
`DATABASE INFORMATION:` marker. -/
def promptPreamble : String :=
  "You are an expert MySQL query generator. Convert natural language questions into valid MySQL SELECT statements.\n\nIMPORTANT RULES:\n1. Output ONLY the SQL query\n2. No explanations, no markdown code blocks, no commentary\n3. Use LIMIT 100 unless the user specifies a different limit\n4. Always use proper table and column aliases when needed\n5. Ensure the query is syntactically correct for MySQL\n6. Use backticks for table/column names if they contain special characters\n\n"

/-- The marker opening the database-information section. -/
def dbMarker : String := "DATABASE INFORMATION:"

/-- The fixed prompt text up to the interpolated table name. -/
def promptHeader : String := promptPreamble ++ dbMarker ++ "\nTable: "

/-- The fixed six few-shot examples block of the prompt. -/
def examplesBlock : String :=
  "\nEXAMPLES OF GOOD QUERIES:\n\nQuestion: \"Show me all records\"\nSQL: SELECT * FROM `table_name` LIMIT 100;\n\nQuestion: \"Top 5 highest prices\"\nSQL: SELECT * FROM `table_name` ORDER BY price DESC LIMIT 5;\n\nQuestion: \"Count by category\"\nSQL: SELECT category, COUNT(*) as count FROM `table_name` GROUP BY category LIMIT 100;\n\nQuestion: \"Average price by category\"\nSQL: SELECT category, AVG(price) as avg_price FROM `table_name` GROUP BY category LIMIT 100;\n\nQuestion: \"Records where status is active\"\nSQL: SELECT * FROM `table_name` WHERE status = \x27active\x27 LIMIT 100;\n\nQuestion: \"Total sales by month\"\nSQL: SELECT DATE_FORMAT(date_column, \x27%Y-%m\x27) as month, SUM(sales) as total FROM `table_name` GROUP BY month ORDER BY month DESC LIMIT 100;\n"

/-- The marker line opening the retry-feedback block. -/
def errHeader : String := "\nPREVIOUS ATTEMPT FAILED WITH ERROR:\n"

/-- Column list rendering: `", ".join(f"{c} ({t})")`, or
`"(unknown)"` when the column list is empty. -/
def colsDetail (columns : List (String × String)) : List Char :=
  if columns.isEmpty then "(unknown)".data
  else (String.intercalate ", " (columns.map (fun p => p.1 ++ " (" ++ p.2 ++ ")"))).data

/-- The sample-data block, omitted when the sample text is empty. -/
def sampleSeg (s : List Char) : List Char :=
  if s = [] then [] else "\nSample Data (first 3 rows):\n".data ++ s ++ ['\n']

/-- The retry-feedback block, omitted when there is no prior error. -/
def errorSeg (e : List Char) : List Char :=
  if e = [] then []
  else errHeader.data ++ e ++ "\n\nPlease fix the query to avoid this error.\n".data

/-- Embedding of `build_prompt(table, columns, question, sample_data,
previous_error)`: the fixed-order concatenation of the source,
followed by the final `.strip()`. -/
def build_prompt (table : String) (columns : List (String × String))
    (question : String) (sample_data : String) (previous_error : String) : String :=
  ⟨stripL (promptHeader.data ++ table.data ++ "\nColumns: ".data ++ colsDetail columns
    ++ ['\n'] ++ sampleSeg sample_data.data ++ examplesBlock.data
    ++ errorSeg previous_error.data ++ "\nUSER QUESTION: ".data ++ question.data
    ++ "\n\nGenerate the MySQL query:\n".data)⟩

/-- The text of a prompt before the first occurrence of a marker:
used to isolate the preamble the spec talks about. -/
def takeBefore (pat : List Char) : List Char → List Char
  | [] => []
  | c :: t => if pat.isPrefixOf (c :: t) then [] else c :: takeBefore pat t

/-- The number of numbered-rule lines in a text: lines whose first
character is a digit and whose second character is `.`. -/
def countNumbered (l : List Char) : Nat :=
  (l.splitOn '\n').countP (fun line =>
    match line with
    | a :: b :: _ => a.isDigit && b == '.'
    | _ => false)

/-! ## Helper lemmas: prefixes and substrings -/

theorem isPrefixOf_append_self (p r : List Char) : p.isPrefixOf (p ++ r) = true := by
  induction p with
  | nil => simp [List.isPrefixOf]
  | cons a t ih => simp [List.isPrefixOf, ih]

theorem exists_of_isPrefixOf {p l : List Char} (h : p.isPrefixOf l = true) :
    ∃ r, l = p ++ r := by
  induction p generalizing l with
  | nil => exact ⟨l, rfl⟩
  | cons a t ih =>
    cases l with
    | nil => simp [List.isPrefixOf] at h
    | cons b m =>
      simp only [List.isPrefixOf, Bool.and_eq_true, beq_iff_eq] at h
      obtain ⟨r, hr⟩ := ih h.2
      exact ⟨r, by simp [h.1, hr]⟩

theorem isPrefixOf_length_le {p l : List Char} (h : p.isPrefixOf l = true) :
    p.length ≤ l.length := by
  obtain ⟨r, rfl⟩ := exists_of_isPrefixOf h
  simp

theorem isPrefixOf_append_left {p l : List Char} (r : List Char)
    (h : p.length ≤ l.length) : p.isPrefixOf (l ++ r) = p.isPrefixOf l := by
  induction p generalizing l with
  | nil => simp [List.isPrefixOf]
  | cons a t ih =>
    cases l with
    | nil => simp at h
    | cons b m =>
      simp only [List.cons_append, List.isPrefixOf]
      rw [show m.append r = m ++ r from rfl, ih (by simpa using h)]

theorem isPrefixOf_append_extend {p l : List Char} (r : List Char)
    (h : p.isPrefixOf l = true) : p.isPrefixOf (l ++ r) = true := by
  obtain ⟨s, rfl⟩ := exists_of_isPrefixOf h
  rw [List.append_assoc]
  exact isPrefixOf_append_self p (s ++ r)

theorem isPrefixOf_of_isPrefixOf {p q l : List Char} (h1 : p.isPrefixOf q = true)
    (h2 : q.isPrefixOf l = true) : p.isPrefixOf l = true := by
  obtain ⟨a, rfl⟩ := exists_of_isPrefixOf h1
  obtain ⟨b, rfl⟩ := exists_of_isPrefixOf h2
  rw [List.append_assoc]
  exact isPrefixOf_append_self p (a ++ b)

theorem ne_nil_of_isPrefixOf {p l : List Char} (hp : p ≠ [])
    (h : p.isPrefixOf l = true) : l ≠ [] := by
  cases l with
  | nil => cases p with
    | nil => exact absurd rfl hp
    | cons a t => simp [List.isPrefixOf] at h
  | cons b m => simp

theorem containsSub_nil_pat (l : List Char) : containsSub l [] = true := by
  cases l <;> simp [containsSub, List.isPrefixOf]

theorem containsSub_of_isPrefixOf {l p : List Char} (h : p.isPrefixOf l = true) :
    containsSub l p = true := by
  cases l with
  | nil =>
    cases p with
    | nil => simp [containsSub]
    | cons a t => simp [List.isPrefixOf] at h
  | cons b m => simp [containsSub, h]

theorem containsSub_append_right {y p : List Char} (x : List Char)
    (h : containsSub y p = true) : containsSub (x ++ y) p = true := by
  induction x with
  | nil => simpa
  | cons a t ih => simp [containsSub, ih]

theorem containsSub_mid (x p y : List Char) : containsSub (x ++ (p ++ y)) p = true :=
  containsSub_append_right x (containsSub_of_isPrefixOf (isPrefixOf_append_self p y))

theorem containsSub_iff {l p : List Char} :
    containsSub l p = true ↔ ∃ x y, l = x ++ p ++ y := by
  constructor
  · intro h
    induction l with
    | nil =>
      simp [containsSub, List.isEmpty_iff] at h
      exact ⟨[], [], by simp [h]⟩
    | cons a t ih =>
      simp only [containsSub, Bool.or_eq_true] at h
      rcases h with h | h
      · obtain ⟨r, hr⟩ := exists_of_isPrefixOf h
        exact ⟨[], r, by simp [hr]⟩
      · obtain ⟨x, y, hxy⟩ := ih h
        exact ⟨a :: x, y, by simp [hxy]⟩
  · rintro ⟨x, y, rfl⟩
    rw [List.append_assoc]
    exact containsSub_mid x p y

/-! ## Helper lemmas: stripping -/

theorem dropWhile_length_le (p : Char → Bool) (l : List Char) :
    (l.dropWhile p).length ≤ l.length := by
  induction l with
  | nil => simp
  | cons a t ih =>
    rw [List.dropWhile_cons]
    split
    · simpa using Nat.le_succ_of_le ih
    · simp

theorem rstripL_eq_nil_iff {b : List Char} :
    rstripL b = [] ↔ b.reverse.dropWhile pyIsSpace = [] := by
  unfold rstripL
  exact List.reverse_eq_nil_iff

theorem rstripL_append (a b : List Char) :
    rstripL (a ++ b) = if rstripL b = [] then rstripL a else a ++ rstripL b := by
  unfold rstripL
  rw [List.reverse_append, List.dropWhile_append]
  by_cases h : b.reverse.dropWhile pyIsSpace = []
  · rw [if_pos (by simp [h]),
      if_pos (show (List.dropWhile pyIsSpace b.reverse).reverse = [] by rw [h]; rfl)]
  · rw [if_neg (by simp [h]),
      if_neg (show ¬ (List.dropWhile pyIsSpace b.reverse).reverse = [] from
        fun hc => h (List.reverse_eq_nil_iff.mp hc))]
    rw [List.reverse_append, List.reverse_reverse]

theorem rstripL_snoc {d : Char} (a : List Char) (h : pyIsSpace d = false) :
    rstripL (a ++ [d]) = a ++ [d] := by
  have h1 : rstripL [d] = [d] := by
    unfold rstripL
    simp [List.dropWhile_cons, h]
  rw [rstripL_append, h1]
  simp

theorem dropWhile_all_notp {p : Char → Bool} {l : List Char}
    (h : ∀ c ∈ l, p c = false) : l.dropWhile p = l := by
  cases l with
  | nil => rfl
  | cons c t =>
    rw [List.dropWhile_cons, h c (List.mem_cons_self c t)]
    simp

theorem rstripL_all_nonws {l : List Char} (h : ∀ c ∈ l, pyIsSpace c = false) :
    rstripL l = l := by
  unfold rstripL
  rw [dropWhile_all_notp (fun c hc => h c (List.mem_reverse.mp hc)), List.reverse_reverse]

theorem rstripL_cons_ne_nil (c : Char) (t : List Char) (hc : pyIsSpace c = false) :
    rstripL (c :: t) ≠ [] := by
  intro habs
  have h2 := rstripL_eq_nil_iff.mp habs
  rw [List.dropWhile_eq_nil_iff] at h2
  have := h2 c (by simp)
  rw [hc] at this
  exact absurd this (by simp)

theorem lstripL_cons_nonws {c : Char} (t : List Char) (h : pyIsSpace c = false) :
    lstripL (c :: t) = c :: t := by
  simp [lstripL, List.dropWhile_cons, h]

theorem lstripL_append_left {a : List Char} (b : List Char) (ha : lstripL a = a)
    (hne : a ≠ []) : lstripL (a ++ b) = a ++ b := by
  cases a with
  | nil => exact absurd rfl hne
  | cons c t =>
    have hc : pyIsSpace c = false := by
      by_contra hc
      simp only [Bool.not_eq_false] at hc
      have hlen := congrArg List.length ha
      simp only [lstripL, List.dropWhile_cons, hc, if_true] at hlen
      have hle := dropWhile_length_le pyIsSpace t
      simp at hlen
      omega
    simpa using lstripL_cons_nonws (t ++ b) hc

theorem stripL_ne_nil_of_mem {d : Char} {l : List Char} (hd : d ∈ l)
    (hnw : pyIsSpace d = false) : stripL l ≠ [] := by
  obtain ⟨x, y, rfl⟩ := List.append_of_mem hd
  unfold stripL lstripL
  rw [List.dropWhile_append]
  by_cases hx : (List.dropWhile pyIsSpace x).isEmpty
  · rw [if_pos hx, List.dropWhile_cons]
    simp only [hnw, Bool.false_eq_true, if_false]
    exact rstripL_cons_ne_nil d y hnw
  · rw [if_neg hx, rstripL_append]
    have h1 : rstripL (d :: y) ≠ [] := rstripL_cons_ne_nil d y hnw
    rw [if_neg h1]
    simp [h1]

theorem containsSub_stripL {w l : List Char} (hw : w ≠ [])
    (hnw : ∀ c ∈ w, pyIsSpace c = false) (h : containsSub l w = true) :
    containsSub (stripL l) w = true := by
  obtain ⟨x, y, rfl⟩ := containsSub_iff.mp h
  obtain ⟨c, w', rfl⟩ : ∃ c w', w = c :: w' := by
    cases w with
    | nil => exact absurd rfl hw
    | cons c w' => exact ⟨c, w', rfl⟩
  have hc : pyIsSpace c = false := hnw c (List.mem_cons_self c w')
  unfold stripL lstripL
  rw [List.append_assoc, List.dropWhile_append]
  have key : ∀ z, containsSub (rstripL ((c :: w') ++ z)) (c :: w') = true := by
    intro z
    rw [rstripL_append]
    by_cases hz : rstripL z = []
    · rw [if_pos hz, rstripL_all_nonws hnw]
      have h0 := isPrefixOf_append_self (c :: w') []
      rw [List.append_nil] at h0
      exact containsSub_of_isPrefixOf h0
    · rw [if_neg hz]
      exact containsSub_of_isPrefixOf (isPrefixOf_append_self (c :: w') (rstripL z))
  by_cases hx : (List.dropWhile pyIsSpace x).isEmpty
  · rw [if_pos hx, List.cons_append, List.dropWhile_cons]
    simp only [hc, Bool.false_eq_true, if_false]
    simpa using key y
  · rw [if_neg hx, rstripL_append]
    by_cases hcy : rstripL ((c :: w') ++ y) = []
    · rw [List.cons_append] at hcy
      exact absurd hcy (rstripL_cons_ne_nil c (w' ++ y) hc)
    · rw [if_neg (by simpa using hcy)]
      apply containsSub_append_right
      simpa using key y

/-! ## Helper lemmas: lower-casing and whitespace -/

theorem lowerChar_of_space {c : Char} (h : pyIsSpace c = true) : lowerChar c = c := by
  unfold lowerChar
  have : ¬ (65 ≤ c.toNat ∧ c.toNat ≤ 90) := by
    simp only [pyIsSpace, Bool.or_eq_true, beq_iff_eq] at h
    omega
  simp [this]

theorem nonws_of_lowerChar_eq {c d : Char} (h : lowerChar c = d)
    (hd : pyIsSpace d = false) : pyIsSpace c = false := by
  by_contra hc
  simp only [Bool.not_eq_false] at hc
  rw [lowerChar_of_space hc] at h
  rw [h] at hc
  rw [hc] at hd
  exact absurd hd (by simp)

theorem forbidden_words_sound :
    ∀ w ∈ forbiddenKeywords, w.data ≠ [] ∧ ∀ c ∈ w.data, pyIsSpace c = false := by
  decide

/-! ## Claim theorems: Safety Gate -/

/-- Claim C1: whatever SQL string the Safety Gate accepts is, after
lower-casing and trimming, non-empty, SELECT-prefixed, and free of
every forbidden keyword; and any statement the run path hands to the
Query Executor was accepted by the gate and contains no forbidden
keyword case-insensitively. -/
theorem claim_c1 :
    (∀ sql : String, (safe_sql_check sql).1 = true →
      stripL (lowerL sql.data) ≠ [] ∧
      "select".data.isPrefixOf (stripL (lowerL sql.data)) = true ∧
      ∀ w ∈ forbiddenKeywords, containsSub (stripL (lowerL sql.data)) w.data = false) ∧
    (∀ editor sqlRun : String, run_handler editor = some sqlRun →
      (safe_sql_check sqlRun).1 = true ∧
      ∀ w ∈ forbiddenKeywords, containsSub (lowerL sqlRun.data) w.data = false) := by
  have gate : ∀ sql : String, (safe_sql_check sql).1 = true →
      stripL (lowerL sql.data) ≠ [] ∧
      "select".data.isPrefixOf (stripL (lowerL sql.data)) = true ∧
      ∀ w ∈ forbiddenKeywords, containsSub (stripL (lowerL sql.data)) w.data = false := by
    intro sql h
    unfold safe_sql_check at h
    by_cases h1 : stripL sql.data = []
    · rw [if_pos h1] at h
      simp at h
    · rw [if_neg h1] at h
      simp only at h
      by_cases h2 : "select".data.isPrefixOf (stripL (lowerL sql.data)) = true
      · rw [h2] at h
        simp only [Bool.not_true, Bool.false_eq_true, if_false] at h
        refine ⟨?_, h2, ?_⟩
        · exact ne_nil_of_isPrefixOf (by simp) h2
        · intro w hw
          cases hf : forbiddenKeywords.find?
              (fun v => containsSub (stripL (lowerL sql.data)) v.data) with
          | some v => rw [hf] at h; simp at h
          | none =>
            have := List.find?_eq_none.mp hf w hw
            simpa using this
      · simp only [Bool.not_eq_true] at h2
        rw [h2] at h
        simp at h
  refine ⟨gate, ?_⟩
  intro editor sqlRun h
  unfold run_handler at h
  simp only at h
  by_cases hok : (safe_sql_check (stripS editor)).1 = true
  · rw [if_pos hok] at h
    have hrun : sqlRun = stripS editor := by
      simpa using h.symm
    subst hrun
    refine ⟨hok, ?_⟩
    intro w hw
    by_contra hcon
    simp only [Bool.not_eq_false] at hcon
    obtain ⟨hne, hnw⟩ := forbidden_words_sound w hw
    have htr := containsSub_stripL hne hnw hcon
    have hall := (gate _ hok).2.2 w hw
    rw [hall] at htr
    exact absurd htr (by simp)
  · simp only [Bool.not_eq_true] at hok
    rw [hok] at h
    simp at h

/-- Claim C1 witness: a concrete accepted statement, and a concrete
run through the run path. -/
theorem claim_c1_witness :
    ((safe_sql_check "select 1").1 = true ∧
      "select".data.isPrefixOf (stripL (lowerL ("select 1").data)) = true) ∧
    (run_handler " select 1 " = some "select 1" ∧
      containsSub (lowerL ("select 1").data) "drop".data = false) := by
  refine ⟨⟨by decide, (claim_c1.1 "select 1" (by decide)).2.1⟩, ⟨by decide, ?_⟩⟩
  exact (claim_c1.2 " select 1 " "select 1" (by decide)).2 "drop" (by decide)

/-- Claim C2 counterexample: the claim "the Safety Gate rejects and
the reason names W" fails: for W = update, the non-SELECT string
"update t set x = 1" is rejected with "Only SELECT allowed.", which
does not mention update; and the SELECT-prefixed string
"select updated_at, dropped from t" contains update but its reason
names drop, the earlier keyword in denylist order. -/
theorem claim_c2_counterexample :
    (containsSub (lowerL ("update t set x = 1").data) "update".data = true ∧
      containsSub ((safe_sql_check "update t set x = 1").2).data "update".data = false) ∧
    (containsSub (lowerL ("select updated_at, dropped from t").data) "update".data = true ∧
      containsSub ((safe_sql_check "select updated_at, dropped from t").2).data
        "update".data = false) := by
  decide

/-- Claim C2 (amended): for every forbidden keyword W and every SQL
string containing W case-insensitively, the Safety Gate rejects the
string; and whenever the trimmed lower-cased string is
SELECT-prefixed, the reason names a forbidden keyword that occurs in
the string — the first in denylist order — though not necessarily W. -/
theorem claim_c2_amended :
    ∀ w ∈ forbiddenKeywords, ∀ sql : String,
      containsSub (lowerL sql.data) w.data = true →
      (safe_sql_check sql).1 = false ∧
      ("select".data.isPrefixOf (stripL (lowerL sql.data)) = true →
        ∃ v ∈ forbiddenKeywords,
          containsSub (stripL (lowerL sql.data)) v.data = true ∧
          (safe_sql_check sql).2 = "Forbidden keyword \x27" ++ v ++ "\x27.") := by
  intro w hw sql hcon
  obtain ⟨hne, hnw⟩ := forbidden_words_sound w hw
  have hstripcon : containsSub (stripL (lowerL sql.data)) w.data = true :=
    containsSub_stripL hne hnw hcon
  have hblank : stripL sql.data ≠ [] := by
    obtain ⟨x, y, hxy⟩ := containsSub_iff.mp hcon
    obtain ⟨c, w', hw'⟩ : ∃ c w', w.data = c :: w' := by
      cases hwd : w.data with
      | nil => exact absurd hwd hne
      | cons c w' => exact ⟨c, w', rfl⟩
    have hcmem : c ∈ lowerL sql.data := by
      rw [hxy, hw']
      simp
    obtain ⟨c0, hc0mem, hc0⟩ := List.mem_map.mp hcmem
    have hcnw : pyIsSpace c = false := hnw c (by rw [hw']; exact List.mem_cons_self c w')
    exact stripL_ne_nil_of_mem hc0mem (nonws_of_lowerChar_eq hc0 hcnw)
  have hfind : ∀ r, forbiddenKeywords.find?
      (fun v => containsSub (stripL (lowerL sql.data)) v.data) = r →
      r ≠ none := by
    intro r hr hrn
    rw [hrn] at hr
    have := List.find?_eq_none.mp hr w hw
    simp [hstripcon] at this
  constructor
  · unfold safe_sql_check
    rw [if_neg (by simpa using hblank)]
    simp only
    by_cases h2 : "select".data.isPrefixOf (stripL (lowerL sql.data)) = true
    · rw [h2]
      simp only [Bool.not_true, Bool.false_eq_true, if_false]
      cases hf : forbiddenKeywords.find?
          (fun v => containsSub (stripL (lowerL sql.data)) v.data) with
      | some v => simp
      | none => exact absurd rfl (hfind none hf)
    · simp only [Bool.not_eq_true] at h2
      rw [h2]
      simp
  · intro hsel
    unfold safe_sql_check
    rw [if_neg (by simpa using hblank)]
    simp only
    rw [hsel]
    simp only [Bool.not_true, Bool.false_eq_true, if_false]
    cases hf : forbiddenKeywords.find?
        (fun v => containsSub (stripL (lowerL sql.data)) v.data) with
    | some v =>
      refine ⟨v, List.mem_of_find?_eq_some hf, ?_, rfl⟩
      simpa using List.find?_some hf
    | none => exact absurd rfl (hfind none hf)

/-- Claim C2 (amended) witness: a concrete SELECT-prefixed statement
containing drop, rejected with a reason naming a contained keyword. -/
theorem claim_c2_witness :
    (safe_sql_check "select dropped from t").1 = false ∧
    ∃ v ∈ forbiddenKeywords,
      containsSub (stripL (lowerL ("select dropped from t").data)) v.data = true ∧
      (safe_sql_check "select dropped from t").2 = "Forbidden keyword \x27" ++ v ++ "\x27." := by
  have h := claim_c2_amended "drop" (by decide) "select dropped from t" (by decide)
  exact ⟨h.1, h.2 (by decide)⟩

/-- Claim C3 counterexample: the empty string does not start with
select, yet the gate's reason for it is "SQL empty.", not
"Only SELECT allowed.". -/
theorem claim_c3_counterexample :
    "select".data.isPrefixOf (stripL (lowerL ("").data)) = false ∧
    (safe_sql_check "").2 ≠ "Only SELECT allowed." := by
  decide

/-- Claim C3 (amended): every SQL string that is non-blank after
trimming and whose trimmed lower-cased form does not start with
select is rejected with reason exactly "Only SELECT allowed.". -/
theorem claim_c3_amended :
    ∀ sql : String, stripL sql.data ≠ [] →
      "select".data.isPrefixOf (stripL (lowerL sql.data)) = false →
      safe_sql_check sql = (false, "Only SELECT allowed.") := by
  intro sql h1 h2
  unfold safe_sql_check
  rw [if_neg (by simpa using h1)]
  simp only
  rw [h2]
  simp

/-- Claim C3 (amended) witness. -/
theorem claim_c3_witness :
    stripL ("show tables").data ≠ [] ∧
    safe_sql_check "show tables" = (false, "Only SELECT allowed.") :=
  ⟨by decide, claim_c3_amended "show tables" (by decide) (by decide)⟩

/-- Claim C9: blank SQL (empty or whitespace-only) is rejected with
reason exactly "SQL empty."; the emptiness check precedes the
SELECT-prefix check and the keyword scan, so no other reason is ever
reported for blank input. -/
theorem claim_c9 :
    ∀ sql : String, stripL sql.data = [] →
      safe_sql_check sql = (false, "SQL empty.") := by
  intro sql h
  unfold safe_sql_check
  rw [if_pos h]

/-- Claim C9 witness: the whitespace-only string "  ". -/
theorem claim_c9_witness :
    stripL ("  ").data = [] ∧ safe_sql_check "  " = (false, "SQL empty.") :=
  ⟨by decide, claim_c9 "  " (by decide)⟩

/-! ## Claim theorems: fast-path detector -/

/-- Claim C6: for the question "show me the top 7 rows" against the
selected table orders, the fast-path detector yields 7 and the
generate handler synthesises exactly the query
SELECT * FROM backtick-orders-backtick LIMIT 7; without invoking the
Generation Client (the branch result is `fast`, not `llmPath`). -/
theorem claim_c6 :
    detect_top_n "show me the top 7 rows" = some 7 ∧
    gen_branch "show me the top 7 rows" (some "orders") =
      GenAction.fast "SELECT * FROM `orders` LIMIT 7;" := by
  decide

/-- Claim C10: a question matching the fast-path pattern with N = 0
makes `detect_top_n` return 0, which the handler treats as falsy, so
the request goes to the Generation Client instead of the fast path. -/
theorem claim_c10 :
    detect_top_n "top 0" = some 0 ∧
    detect_top_n "show me the first 0 rows" = some 0 ∧
    (∀ t : String, gen_branch "top 0" (some t) = GenAction.llmPath) ∧
    (∀ t : String, gen_branch "show me the first 0 rows" (some t) = GenAction.llmPath) := by
  refine ⟨by decide, by decide, fun t => ?_, fun t => ?_⟩ <;> rfl

theorem lstripL_all_nonws {l : List Char} (h : ∀ c ∈ l, pyIsSpace c = false) :
    lstripL l = l := by
  cases l with
  | nil => rfl
  | cons c t => exact lstripL_cons_nonws t (h c (List.mem_cons_self c t))

theorem stripL_nonws_concat {t6 z : List Char} (h6 : t6 ≠ [])
    (hnw : ∀ c ∈ t6, pyIsSpace c = false) :
    stripL (t6 ++ z) = if rstripL z = [] then t6 else t6 ++ rstripL z := by
  unfold stripL
  rw [show lstripL (t6 ++ z) = t6 ++ z from
    lstripL_append_left z (lstripL_all_nonws hnw) h6]
  rw [rstripL_append]
  by_cases hz : rstripL z = []
  · simp [hz, rstripL_all_nonws hnw]
  · simp [hz]

theorem upToSemi_shape {l r : List Char} (h : upToSemi l = some r) :
    ∃ a, r = a ++ [';'] := by
  induction l generalizing r with
  | nil => simp [upToSemi] at h
  | cons c t ih =>
    simp only [upToSemi] at h
    by_cases hc : c = ';'
    · rw [if_pos hc] at h
      exact ⟨[], by simpa using h.symm⟩
    · rw [if_neg hc] at h
      cases ht : upToSemi t with
      | none => rw [ht] at h; simp at h
      | some r' =>
        rw [ht] at h
        simp only [Option.map_some'] at h
        obtain ⟨a, ha⟩ := ih ht
        refine ⟨c :: a, ?_⟩
        rw [← Option.some.inj h, ha]
        simp

theorem upToSemi_full {a : List Char} (h : ';' ∉ a) :
    upToSemi (a ++ [';']) = some (a ++ [';']) := by
  induction a with
  | nil => simp [upToSemi]
  | cons c t ih =>
    have hc : ¬ (c = ';') := fun hc => h (by simp [hc])
    have ht : ';' ∉ t := fun hm => h (List.mem_cons_of_mem c hm)
    simp only [List.cons_append, upToSemi, if_neg hc, List.append_eq, ih ht,
      Option.map_some']

theorem firstSelectSuffix_sound {l s : List Char} (h : firstSelectSuffix l = some s) :
    "select".data.isPrefixOf (lowerL s) = true := by
  induction l with
  | nil => simp [firstSelectSuffix] at h
  | cons c t ih =>
    simp only [firstSelectSuffix] at h
    by_cases hc : startsWithCI "select".data (c :: t) = true
    · rw [if_pos hc] at h
      cases h
      exact hc
    · rw [if_neg hc] at h
      exact ih h

theorem selectCI_decomp {s : List Char} (h : "select".data.isPrefixOf (lowerL s) = true) :
    s.take 6 ≠ [] ∧ lowerL (s.take 6) = "select".data ∧
      (∀ c ∈ s.take 6, pyIsSpace c = false) := by
  have hlen : 6 ≤ s.length := by
    have := isPrefixOf_length_le h
    simpa [lowerL] using this
  have htake : lowerL (s.take 6) = "select".data := by
    obtain ⟨r, hr⟩ := exists_of_isPrefixOf h
    have : (lowerL s).take 6 = "select".data := by
      rw [hr]
      exact List.take_left' (by decide)
    rw [← this, lowerL, lowerL, List.map_take]
  refine ⟨?_, htake, ?_⟩
  · have : (s.take 6).length = 6 := by
      simp [List.length_take]
      omega
    intro habs
    rw [habs] at this
    simp at this
  · intro c hc
    have hmem : lowerChar c ∈ "select".data := by
      rw [← htake]
      exact List.mem_map_of_mem lowerChar hc
    have hsel : ∀ d ∈ "select".data, pyIsSpace d = false := by decide
    exact nonws_of_lowerChar_eq rfl (hsel _ hmem)

theorem dropWhile_idem (p : Char → Bool) (l : List Char) :
    (l.dropWhile p).dropWhile p = l.dropWhile p := by
  induction l with
  | nil => rfl
  | cons c t ih =>
    rw [List.dropWhile_cons]
    by_cases h : p c = true
    · rw [if_pos h]
      exact ih
    · rw [if_neg h, List.dropWhile_cons, if_neg h]

theorem rstripL_idem (l : List Char) : rstripL (rstripL l) = rstripL l := by
  unfold rstripL
  rw [List.reverse_reverse, dropWhile_idem]

theorem stripL_stable {z : List Char} (t6 : List Char) (h6 : t6 ≠ [])
    (hnw : ∀ c ∈ t6, pyIsSpace c = false) (hz : rstripL z = z) :
    stripL (t6 ++ z) = t6 ++ z := by
  rw [stripL_nonws_concat h6 hnw, hz]
  by_cases h : z = []
  · simp [h]
  · simp [h]

theorem endsWithSemi_concat (x : List Char) : endsWithSemi (x ++ [';']) = true := by
  simp [endsWithSemi, List.getLast?_concat]

theorem startsWithCI_select_concat {t6 : List Char} (z : List Char)
    (hlow : lowerL t6 = "select".data) :
    startsWithCI "select".data (t6 ++ z) = true := by
  unfold startsWithCI
  rw [lowerL, List.map_append, ← lowerL, ← lowerL, hlow]
  exact isPrefixOf_append_self "select".data (lowerL z)

theorem extractCore_none {l : List Char} (hfs : firstSelectSuffix l = none) :
    extractCore l = [] := by
  simp [extractCore, hfs]

theorem extractCore_spec (l : List Char) :
    extractCore l = [] ∨
    (startsWithCI "select".data (extractCore l) = true ∧
      (extractCore l).getLast? = some ';') := by
  cases hfs : firstSelectSuffix l with
  | none => exact Or.inl (extractCore_none hfs)
  | some s =>
    have hsel := firstSelectSuffix_sound hfs
    obtain ⟨hne6, hlow6, hnw6⟩ := selectCI_decomp hsel
    right
    cases hus : upToSemi (s.drop 6) with
    | some rest =>
      obtain ⟨a, rfl⟩ := upToSemi_shape hus
      have hstrip : stripL (s.take 6 ++ (a ++ [';'])) = s.take 6 ++ (a ++ [';']) :=
        stripL_stable (s.take 6) hne6 hnw6 (by rw [rstripL_snoc a (by decide)])
      have hne : s.take 6 ++ (a ++ [';']) ≠ [] := by simp [hne6]
      have hsemi : endsWithSemi (s.take 6 ++ (a ++ [';'])) = true := by
        rw [← List.append_assoc]
        exact endsWithSemi_concat (s.take 6 ++ a)
      have hv : extractCore l = s.take 6 ++ (a ++ [';']) := by
        simp only [extractCore, hfs, hus]
        rw [hstrip, hsemi]
        simp [hne, hstrip]
      rw [hv]
      refine ⟨startsWithCI_select_concat _ hlow6, ?_⟩
      rw [← List.append_assoc]
      exact List.getLast?_concat _
    | none =>
      have hsplit := stripL_nonws_concat (z := s.drop 6) hne6 hnw6
      rw [List.take_append_drop] at hsplit
      obtain ⟨z, hz, hzr⟩ : ∃ z, stripL s = s.take 6 ++ z ∧ rstripL z = z := by
        by_cases h : rstripL (s.drop 6) = []
        · rw [if_pos h] at hsplit
          exact ⟨[], by simpa using hsplit, rfl⟩
        · rw [if_neg h] at hsplit
          exact ⟨rstripL (s.drop 6), hsplit, rstripL_idem (s.drop 6)⟩
      have hne : s.take 6 ++ z ≠ [] := by simp [hne6]
      by_cases hsemi : endsWithSemi (s.take 6 ++ z) = true
      · have hv : extractCore l = s.take 6 ++ z := by
          simp only [extractCore, hfs, hus]
          rw [hz, hsemi]
          simp [hne, stripL_stable (s.take 6) hne6 hnw6 hzr]
        rw [hv]
        refine ⟨startsWithCI_select_concat _ hlow6, ?_⟩
        simpa [endsWithSemi] using hsemi
      · have hsemi2 : endsWithSemi (s.take 6 ++ z) = false := by
          simpa using hsemi
        have hv : extractCore l = s.take 6 ++ (z ++ [';']) := by
          simp only [extractCore, hfs, hus]
          rw [hz, hsemi2]
          simp only [Bool.not_false, and_true, ne_eq, hne, not_false_iff, if_true,
            if_pos hne]
          have hne2 : ¬ (s.take 6 ++ z ++ [';'] = []) := by simp
          simp only [hne2, not_false_iff, if_true]
          rw [List.append_assoc]
          exact stripL_stable (s.take 6) hne6 hnw6 (by rw [rstripL_snoc z (by decide)])
        rw [hv]
        refine ⟨startsWithCI_select_concat _ hlow6, ?_⟩
        rw [← List.append_assoc]
        exact List.getLast?_concat _

theorem firstSelectSuffix_eq_none {l : List Char}
    (h : containsSub (lowerL l) "select".data = false) :
    firstSelectSuffix l = none := by
  induction l with
  | nil => rfl
  | cons c t ih =>
    have hcon : containsSub (lowerL (c :: t)) "select".data =
        ("select".data.isPrefixOf (lowerL (c :: t)) || containsSub (lowerL t) "select".data) := by
      show containsSub (lowerChar c :: lowerL t) "select".data = _
      rfl
    rw [hcon] at h
    simp only [Bool.or_eq_false_iff] at h
    simp only [firstSelectSuffix, startsWithCI, h.1, Bool.false_eq_true, if_false]
    exact ih h.2

/-! ## Claim theorems: SQL Extractor -/

/-- Claim C4 counterexample: the input "SEL(three backticks)ECT * FROM t;"
contains no case-insensitive occurrence of SELECT, yet fence removal
joins the pieces into one, so `extract_sql` returns a non-empty
result, contradicting the claim that a SELECT-free input always
yields the empty string. -/
theorem claim_c4_counterexample :
    containsSub (lowerL ("SEL```ECT * FROM t;").data) "select".data = false ∧
    extract_sql "SEL```ECT * FROM t;" ≠ "" := by
  constructor
  · decide
  · intro h
    have : extract_sql "SEL```ECT * FROM t;" = "SELECT * FROM t;" := by decide
    rw [this] at h
    exact absurd h (by decide)

/-- Claim C4 (amended): every extractor output is either empty or
starts with SELECT case-insensitively and ends with a semicolon; and
whenever the fence-stripped input contains no case-insensitive
occurrence of SELECT, the output is empty. -/
theorem claim_c4_amended :
    (∀ raw : String, extract_sql raw = "" ∨
      (startsWithCI "select".data (extract_sql raw).data = true ∧
        (extract_sql raw).data.getLast? = some ';')) ∧
    (∀ raw : String, containsSub (lowerL (cleanFences raw.data)) "select".data = false →
      extract_sql raw = "") := by
  constructor
  · intro raw
    have h := extractCore_spec (cleanFences raw.data)
    rcases h with h | h
    · left
      apply String.ext
      exact h
    · right
      exact h
  · intro raw h
    apply String.ext
    show extractCore (cleanFences raw.data) = []
    exact extractCore_none (firstSelectSuffix_eq_none h)

/-- Claim C4 (amended) witness: a SELECT-free input yields the empty
string. -/
theorem claim_c4_witness :
    containsSub (lowerL (cleanFences ("no sql here").data)) "select".data = false ∧
    extract_sql "no sql here" = "" :=
  ⟨by decide, claim_c4_amended.2 "no sql here" (by decide)⟩

theorem removeFenceF_id {pat l : List Char} (fuel : Nat)
    (hp : "```".data.isPrefixOf pat = true)
    (h : containsSub l "```".data = false) :
    removeFenceF pat fuel l = l := by
  induction fuel generalizing l with
  | zero => cases l <;> rfl
  | succ fuel ih =>
    cases l with
    | nil => rfl
    | cons c t =>
      have hsplit : containsSub (c :: t) "```".data =
          ("```".data.isPrefixOf (c :: t) || containsSub t "```".data) := rfl
      rw [hsplit] at h
      simp only [Bool.or_eq_false_iff] at h
      have hcond : ¬ (pat ≠ [] ∧ pat.isPrefixOf (c :: t) = true) := by
        rintro ⟨-, hpre⟩
        have := isPrefixOf_of_isPrefixOf hp hpre
        rw [this] at h
        exact absurd h.1 (by simp)
      show (if pat ≠ [] ∧ pat.isPrefixOf (c :: t) = true then
          removeFenceF pat fuel (((c :: t).drop pat.length).dropWhile pyIsSpace)
        else c :: removeFenceF pat fuel t) = c :: t
      rw [if_neg hcond, ih h.2]

theorem cleanFences_id {l : List Char} (h : containsSub l "```".data = false) :
    cleanFences l = l := by
  unfold cleanFences removeFence
  rw [removeFenceF_id l.length (by decide) h, removeFenceF_id l.length (by decide) h]

/-- Claim C5 counterexample: "SELECT 1; SELECT 2;" starts with
SELECT, ends with a semicolon and contains no fences, yet the
Extractor truncates it at the first semicolon, so it is not a fixed
point. -/
theorem claim_c5_counterexample :
    ("SELECT".data.isPrefixOf ("SELECT 1; SELECT 2;").data = true ∧
      containsSub ("SELECT 1; SELECT 2;").data "```".data = false ∧
      ("SELECT 1; SELECT 2;").data.getLast? = some ';') ∧
    extract_sql "SELECT 1; SELECT 2;" ≠ "SELECT 1; SELECT 2;" := by
  decide

/-- Claim C5 (amended): the Extractor is a fixed point on any string
that starts with SELECT, contains no markdown fences, and ends with
its one and only semicolon. -/
theorem claim_c5_amended :
    ∀ cand : String,
      "SELECT".data.isPrefixOf cand.data = true →
      containsSub cand.data "```".data = false →
      cand.data.getLast? = some ';' →
      ';' ∉ cand.data.dropLast →
      extract_sql cand = cand := by
  intro cand h1 h2 h3 h4
  obtain ⟨r, hr⟩ := exists_of_isPrefixOf h1
  rw [hr] at h2 h3 h4
  apply String.ext
  show extractCore (cleanFences cand.data) = cand.data
  rw [hr, cleanFences_id h2]
  by_cases hrne : r = []
  · rw [hrne] at h3
    exact absurd h3 (by decide)
  · have hsw : startsWithCI "select".data ("SELECT".data ++ r) = true := by
      unfold startsWithCI
      rw [lowerL, List.map_append]
      have hmap : List.map lowerChar "SELECT".data = "select".data := by decide
      rw [hmap]
      exact isPrefixOf_append_self _ _
    have hfs : firstSelectSuffix ("SELECT".data ++ r) = some ("SELECT".data ++ r) := by
      have e : firstSelectSuffix ("SELECT".data ++ r) =
          if startsWithCI "select".data ('S' :: ("ELECT".data ++ r)) = true
          then some ('S' :: ("ELECT".data ++ r))
          else firstSelectSuffix ("ELECT".data ++ r) := rfl
      rw [e, if_pos (show startsWithCI "select".data ('S' :: ("ELECT".data ++ r)) = true from hsw)]
      rfl
    have hlast : r.getLast? = some ';' := by
      rwa [List.getLast?_append_of_ne_nil _ hrne] at h3
    have hshape : r = r.dropLast ++ [';'] := by
      have hg := List.getLast?_eq_getLast r hrne
      rw [hg] at hlast
      have := List.dropLast_append_getLast hrne
      rw [Option.some.inj hlast] at this
      exact this.symm
    have hnotin : ';' ∉ r.dropLast := by
      intro hm
      apply h4
      rw [List.dropLast_append_of_ne_nil _ hrne]
      exact List.mem_append_right _ hm
    have hdrop : ("SELECT".data ++ r).drop 6 = r := List.drop_left' (by decide)
    have htake : ("SELECT".data ++ r).take 6 = "SELECT".data := List.take_left' (by decide)
    have hus : upToSemi (("SELECT".data ++ r).drop 6) = some r := by
      rw [hdrop]
      conv_lhs => rw [hshape]
      rw [upToSemi_full hnotin, ← hshape]
    have hnw : ∀ c ∈ "SELECT".data, pyIsSpace c = false := by decide
    have hne6 : "SELECT".data ≠ ([] : List Char) := by decide
    have hzr : rstripL r = r := by
      conv_lhs => rw [hshape]
      rw [rstripL_snoc r.dropLast (by decide)]
      exact hshape.symm
    have hstrip : stripL ("SELECT".data ++ r) = "SELECT".data ++ r :=
      stripL_stable _ hne6 hnw hzr
    have hsemi : endsWithSemi ("SELECT".data ++ r) = true := by
      unfold endsWithSemi
      rw [h3]
      rfl
    have hbig : "SELECT".data ++ r ≠ [] := by
      intro habs
      exact hne6 (List.append_eq_nil.mp habs).1
    simp only [extractCore, hfs, htake, hus]
    rw [hstrip, hsemi]
    simp [hbig]
    exact hstrip

/-- Claim C5 (amended) witness: a well-formed single statement is
returned unchanged. -/
theorem claim_c5_witness :
    ("SELECT".data.isPrefixOf ("SELECT a FROM b;").data = true ∧
      containsSub ("SELECT a FROM b;").data "```".data = false ∧
      ("SELECT a FROM b;").data.getLast? = some ';' ∧
      ';' ∉ ("SELECT a FROM b;").data.dropLast) ∧
    extract_sql "SELECT a FROM b;" = "SELECT a FROM b;" :=
  ⟨⟨by decide, by decide, by decide, by decide⟩,
    claim_c5_amended "SELECT a FROM b;" (by decide) (by decide) (by decide) (by decide)⟩

/-! ## Helper lemmas: Prompt Builder -/

theorem str_data_append (a b : String) : (a ++ b).data = a.data ++ b.data := by
  cases a
  cases b
  rfl

theorem str_mk_data (l : List Char) : (String.mk l).data = l := rfl

set_option maxHeartbeats 1000000 in
theorem build_prompt_data (table : String) (columns : List (String × String))
    (question sample_data previous_error : String) :
    (build_prompt table columns question sample_data previous_error).data =
      promptHeader.data ++ table.data ++ "\nColumns: ".data ++ colsDetail columns
        ++ ['\n'] ++ sampleSeg sample_data.data ++ examplesBlock.data
        ++ errorSeg previous_error.data ++ "\nUSER QUESTION: ".data ++ question.data
        ++ "\n\nGenerate the MySQL query:".data := by
  unfold build_prompt
  rw [str_mk_data]
  unfold stripL
  have h1 : lstripL (promptHeader.data ++ table.data ++ "\nColumns: ".data
      ++ colsDetail columns ++ ['\n'] ++ sampleSeg sample_data.data ++ examplesBlock.data
      ++ errorSeg previous_error.data ++ "\nUSER QUESTION: ".data ++ question.data
      ++ "\n\nGenerate the MySQL query:\n".data) =
      promptHeader.data ++ table.data ++ "\nColumns: ".data
      ++ colsDetail columns ++ ['\n'] ++ sampleSeg sample_data.data ++ examplesBlock.data
      ++ errorSeg previous_error.data ++ "\nUSER QUESTION: ".data ++ question.data
      ++ "\n\nGenerate the MySQL query:\n".data := by
    simp only [List.append_assoc]
    exact lstripL_append_left _ (by decide) (by decide)
  rw [h1, rstripL_append]
  have h2 : rstripL ("\n\nGenerate the MySQL query:\n".data) =
      "\n\nGenerate the MySQL query:".data := by decide
  rw [h2, if_neg (by decide)]

/-- The function `takeBefore` returns the text before the first occurrence of the
marker: if the marker first occurs in `pre ++ pat` exactly at the end,
then appending anything after it cannot create an earlier match. -/
theorem takeBefore_of_clean {pat : List Char} (hne : pat ≠ []) :
    ∀ pre : List Char, takeBefore pat (pre ++ pat) = pre →
    ∀ rest, takeBefore pat (pre ++ (pat ++ rest)) = pre := by
  intro pre
  induction pre with
  | nil =>
    intro _ rest
    obtain ⟨c, t, rfl⟩ : ∃ c t, pat = c :: t := by
      cases pat with
      | nil => exact absurd rfl hne
      | cons c t => exact ⟨c, t, rfl⟩
    simp only [List.nil_append]
    have e : takeBefore (c :: t) ((c :: t) ++ rest) =
        if (c :: t).isPrefixOf (c :: (t ++ rest)) = true then []
        else c :: takeBefore (c :: t) (t ++ rest) := rfl
    rw [e, if_pos (show (c :: t).isPrefixOf (c :: (t ++ rest)) = true from
      isPrefixOf_append_self (c :: t) rest)]
  | cons d pre' ih =>
    intro hclean rest
    have e0 : takeBefore pat ((d :: pre') ++ pat) =
        if pat.isPrefixOf (d :: (pre' ++ pat)) = true then []
        else d :: takeBefore pat (pre' ++ pat) := rfl
    rw [e0] at hclean
    by_cases hif : pat.isPrefixOf (d :: (pre' ++ pat)) = true
    · rw [if_pos hif] at hclean
      exact absurd hclean.symm (by simp)
    · rw [if_neg hif] at hclean
      have htail : takeBefore pat (pre' ++ pat) = pre' := by
        have := List.cons.inj hclean
        exact this.2
      have e1 : takeBefore pat ((d :: pre') ++ (pat ++ rest)) =
          if pat.isPrefixOf (d :: (pre' ++ (pat ++ rest))) = true then []
          else d :: takeBefore pat (pre' ++ (pat ++ rest)) := rfl
    
      have hif2 : pat.isPrefixOf (d :: (pre' ++ (pat ++ rest))) = false := by
      
        have hlen : pat.length ≤ (d :: (pre' ++ pat)).length := by
          simp [List.length_append]
          omega
        have hstep := isPrefixOf_append_left rest hlen
        have hshape : (d :: (pre' ++ pat)) ++ rest = d :: (pre' ++ (pat ++ rest)) := by
          simp [List.append_assoc]
        rw [hshape] at hstep
        rw [hstep]
        exact Bool.eq_false_iff.mpr hif
      rw [e1, hif2]
      simp only [Bool.false_eq_true, if_false]
      rw [ih htail rest]

/-! ## Claim theorems: Prompt Builder -/

set_option maxHeartbeats 1000000 in
/-- Claim C7 counterexample: at a concrete input, the preamble of
the built prompt (the text before the DATABASE INFORMATION marker)
contains six numbered rules, not five. -/
theorem claim_c7_counterexample :
    ¬ (countNumbered (takeBefore dbMarker.data
        (build_prompt "t" [] "q" "" "").data) = 5) := by
  decide

set_option maxHeartbeats 1000000 in
/-- Claim C7 (amended): for every combination of inputs, the built
prompt begins with the fixed instruction preamble, and that preamble
contains exactly six numbered rules (output SQL only; no
explanations or markdown; default row limit; aliases; syntactic
correctness; identifier quoting). -/
theorem claim_c7_amended :
    ∀ (table : String) (columns : List (String × String))
      (question sample_data previous_error : String),
      takeBefore dbMarker.data
        (build_prompt table columns question sample_data previous_error).data =
        promptPreamble.data ∧
      countNumbered promptPreamble.data = 6 := by
  intro t cols q s e
  refine ⟨?_, by decide⟩
  rw [build_prompt_data]
  have hsplit : promptHeader.data =
      promptPreamble.data ++ (dbMarker.data ++ "\nTable: ".data) := by
    unfold promptHeader
    rw [str_data_append, str_data_append, List.append_assoc]
  rw [hsplit]
  simp only [List.append_assoc]
  exact takeBefore_of_clean (by decide) promptPreamble.data (by decide) _

theorem containsSub_err (e rest : List Char) :
    containsSub (errHeader.data ++ (e ++ rest))
      ("PREVIOUS ATTEMPT FAILED WITH ERROR:\n".data ++ e) = true := by
  have e1 : errHeader.data ++ (e ++ rest) =
      '\n' :: (("PREVIOUS ATTEMPT FAILED WITH ERROR:\n".data ++ e) ++ rest) := by
    show ('\n' :: "PREVIOUS ATTEMPT FAILED WITH ERROR:\n".data) ++ (e ++ rest) = _
    simp [List.append_assoc]
  rw [e1]
  exact containsSub_append_right ['\n']
    (containsSub_of_isPrefixOf (isPrefixOf_append_self _ _))

/-- Claim C8: every built prompt contains the literal table name and
the literal question text as substrings, and, when the prior error is
non-empty, also the literal error text directly under the
PREVIOUS ATTEMPT FAILED marker. -/
theorem claim_c8 :
    ∀ (table : String) (columns : List (String × String))
      (question sample_data previous_error : String),
      containsSub (build_prompt table columns question sample_data previous_error).data
        table.data = true ∧
      containsSub (build_prompt table columns question sample_data previous_error).data
        question.data = true ∧
      (previous_error ≠ "" →
        containsSub (build_prompt table columns question sample_data previous_error).data
          ("PREVIOUS ATTEMPT FAILED WITH ERROR:\n" ++ previous_error).data = true) := by
  intro t cols q s e
  rw [build_prompt_data]
  refine ⟨?_, ?_, ?_⟩
  · simp only [List.append_assoc]
    exact containsSub_mid _ _ _
  · simp only [List.append_assoc]
    iterate 9 apply containsSub_append_right
    exact containsSub_of_isPrefixOf (isPrefixOf_append_self _ _)
  · intro he
    have heD : e.data ≠ [] := by
      intro habs
      exact he (String.ext (by rw [habs]))
    have hes : errorSeg e.data = errHeader.data ++ e.data
        ++ "\n\nPlease fix the query to avoid this error.\n".data := by
      unfold errorSeg
      rw [if_neg heD]
    rw [hes, str_data_append]
    simp only [List.append_assoc]
    iterate 7 apply containsSub_append_right
    exact containsSub_err e.data _

/-- Claim C8 witness: a concrete prompt built with a non-empty prior
error contains the table name, the question, and the quoted error. -/
theorem claim_c8_witness :
    containsSub (build_prompt "orders" [] "q1" "" "err1").data ("orders").data = true ∧
    containsSub (build_prompt "orders" [] "q1" "" "err1").data ("q1").data = true ∧
    containsSub (build_prompt "orders" [] "q1" "" "err1").data
      ("PREVIOUS ATTEMPT FAILED WITH ERROR:\n" ++ "err1").data = true := by
  have h := claim_c8 "orders" [] "q1" "" "err1"
  exact ⟨h.1, h.2.1, h.2.2 (by decide)⟩
